import Mathlib

/-!
Verification of the `numetricbi/api-samples` CSV uploader scripts
(`csv_uploader.py`, `csv-uploader.py`, `csv-unique-count.py`).

The development shallowly embeds the pieces of the scripts that the checked
claims are about:

* field-name normalization (`strip`, `'.' -> '_'` replacement, and the
  leading-underscore rotation `while` loop, modelled with explicit fuel so
  that divergence of the loop is expressible),
* the encoding-probing loop of `CsvExtractor.__init__`,
* `validate_fields`,
* the HTTP status handling of `request_api` / `post_to_api`,
* the `uuid.uuid1`-based identifier generation of `_make_id` (the timestamp
  bump and field layout follow the documented CPython `uuid` behaviour),
* `extract_records` (csv.DictReader modelled over already-split rows;
  blank rows are skipped as `csv.DictReader` does; the `restkey` entry for
  over-long rows is not modelled since no claim touches it),
* the `ast.literal_eval` list-coercion step and the batching loop of
  `process_file`, and the request-issuing control flow of `process_file`
  (request payloads are elided; only the kind and order of requests and the
  raised errors are modelled, which is what the claims are about).

Strings are modelled as `List Char` where character-level manipulation
matters, and as `String` elsewhere.
-/

/-! ## Field-name normalization (`CsvExtractor.__init__`, csv_uploader.py lines 56-61) -/

/-- Python `str.isspace` — the set of characters `str.strip()` removes:
U+0009..U+000D, U+001C..U+001F, the space, U+0085 (NEL), U+00A0 (NBSP,
reachable here via the iso-8859-1 decoding of byte 0xA0), U+1680, the
U+2000..U+200A spaces, U+2028, U+2029, U+202F, U+205F and U+3000. -/
def pyWhitespace (c : Char) : Bool :=
  (0x09 ≤ c.toNat && c.toNat ≤ 0x0D) ||
  (0x1C ≤ c.toNat && c.toNat ≤ 0x1F) ||
  c.toNat = 0x20 || c.toNat = 0x85 || c.toNat = 0xA0 || c.toNat = 0x1680 ||
  (0x2000 ≤ c.toNat && c.toNat ≤ 0x200A) ||
  c.toNat = 0x2028 || c.toNat = 0x2029 || c.toNat = 0x202F ||
  c.toNat = 0x205F || c.toNat = 0x3000

/-- Python `x.strip()`: drop whitespace from both ends. -/
def stripL (s : List Char) : List Char :=
  ((s.dropWhile pyWhitespace).reverse.dropWhile pyWhitespace).reverse

/-- Python `x.replace('.', '_')` (single-character replacement). -/
def replaceDots (s : List Char) : List Char :=
  s.map (fun c => if c = '.' then '_' else c)

/-- The `while self.fieldnames[i].startswith('_'): self.fieldnames[i] =
self.fieldnames[i][1:] + "_"` loop, with explicit fuel.  `none` means the
fuel ran out with the loop guard still true. -/
def rotAux : Nat → List Char → Option (List Char)
  | 0, s => if s.head? = some '_' then none else some s
  | fuel + 1, s => if s.head? = some '_' then rotAux fuel (s.tail ++ ['_']) else some s

/-- The rotation loop run with fuel `s.length`, which suffices for every
input on which the loop terminates (each iteration consumes one leading
underscore, and there are at most `s.length` of them). -/
def rotateUnderscores (s : List Char) : Option (List Char) :=
  rotAux s.length s

/-- One field name as produced by `CsvExtractor.__init__` of
`csv_uploader.py`: `x.strip().replace('.', '_')` followed by the
leading-underscore rotation loop.  `none` models the loop not terminating. -/
def normalizeName (s : List Char) : Option (List Char) :=
  rotateUnderscores (replaceDots (stripL s))

/-- Normalization of the whole header, name by name, propagating
divergence. -/
def normalizeHeader : List (List Char) → Option (List (List Char))
  | [] => some []
  | nm :: rest =>
    match normalizeName nm with
    | none => none
    | some v =>
      match normalizeHeader rest with
      | none => none
      | some vs => some (v :: vs)

/-- Python `'Column_%d' % ii`. -/
def columnName (i : Nat) : List Char :=
  "Column_".toList ++ (toString i).toList

/-- The `if not field: self.fieldnames[ii] = 'Column_%d' % ii` pass. -/
def fillEmptyNames : Nat → List (List Char) → List (List Char)
  | _, [] => []
  | i, nm :: rest => (if nm.isEmpty then columnName i else nm) :: fillEmptyNames (i + 1) rest

/-- Field-name initialization of `CsvExtractor.__init__`: normalization of
every header name followed by the empty-name fill-in.  `none` models the
constructor not terminating. -/
def initFieldnames (names : List (List Char)) : Option (List (List Char)) :=
  (normalizeHeader names).map (fillEmptyNames 0)

/-! ## Encoding probing (`CsvExtractor.__init__`, csv_uploader.py lines 44-71) -/

/-- The candidate encodings, in the order the constructor tries them. -/
def encodingCandidates : List String := ["utf-8-sig", "utf-8", "iso-8859-1", "ascii"]

/-- Whether an `Except` result is a success. -/
def exOk {ε α : Type} : Except ε α → Bool
  | .ok _ => true
  | .error _ => false

/-- The probing loop: try each encoding in turn; on the first success stop
and return that encoding; on failure remember the exception
(`exception = e`).  After the loop, `if exception: raise exception`.
`decode enc` models "open the file with `enc` and read it to the end"
(`.ok ()` when no `UnicodeDecodeError` is raised). -/
def tryEncodings (decode : String → Except String Unit) :
    List String → Option String → Except String (Option String)
  | [], exc =>
    match exc with
    | some e => .error e
    | none => .ok none
  | enc :: rest, _ =>
    match decode enc with
    | .ok _ => .ok (some enc)
    | .error e => tryEncodings decode rest (some e)

/-- Encoding selection of `CsvExtractor.__init__`: the probing loop over the
fixed candidate list, starting with `exception = None`. -/
def selectEncoding (decode : String → Except String Unit) : Except String (Option String) :=
  tryEncodings decode encodingCandidates none

/-! ## Field-definition validation (`validate_fields`, csv_uploader.py lines 100-112) -/

/-- `ALLOWED_TYPES` from the scripts. -/
def ALLOWED_TYPES : List String :=
  ["string", "integer", "double", "currency", "date", "time", "datetime",
   "boolean", "geo_shape", "geo_point"]

/-- A field-definition mapping, restricted to the two keys `validate_fields`
inspects (`'field' in field` / `'type' in field`; `none` models an absent
key). -/
structure FieldDef where
  field : Option String
  type : Option String
deriving DecidableEq

/-- Python `'", "'.join(ALLOWED_TYPES)`. -/
def allowedTypesJoined : String := String.intercalate "\", \"" ALLOWED_TYPES

/-- Python `'Invalid type {} for field {}.  Must be one of "{}"'.format(...)`. -/
def invalidTypeMsg (t : String) (i : Nat) : String :=
  s!"Invalid type {t} for field {i}.  Must be one of \"{allowedTypesJoined}\""

/-- The errors contributed by entry `i` of the field list, in the order the
loop body appends them. -/
def fieldEntryErrors (i : Nat) (f : FieldDef) : List String :=
  (match f.field with
   | none => [s!"Missing \x27field\x27 attribute from field {i}"]
   | some _ => []) ++
  (match f.type with
   | none => [s!"Missing \x27type\x27 attribute from field {i}"]
   | some t => if t ∈ ALLOWED_TYPES then [] else [invalidTypeMsg t i])

/-- The `for i, field in enumerate(fields)` accumulation of `errors`. -/
def collectFieldErrors : Nat → List FieldDef → List String
  | _, [] => []
  | i, f :: fs => fieldEntryErrors i f ++ collectFieldErrors (i + 1) fs

/-- `validate_fields`: collect all errors and raise `FieldError` with the
newline-joined message if any exist. -/
def validate_fields (fields : List FieldDef) : Except String Unit :=
  let errors := collectFieldErrors 0 fields
  if errors.isEmpty then .ok () else .error (String.intercalate "\n" errors)

/-- The property "entry has a `field` key and an allowed `type`", as the
spec states it (used on the specification side of claim C5). -/
def entryOk (f : FieldDef) : Bool :=
  f.field.isSome &&
    (match f.type with
     | none => false
     | some t => decide (t ∈ ALLOWED_TYPES))

/-! ## HTTP status handling (`request_api` csv_uploader.py lines 115-123;
`post_to_api` csv-uploader.py lines 93-106) -/

/-- The observable outcome of one request-handling call, as a function of
the response status code. -/
inductive ReqOutcome where
  /-- returns `r.json()` without printing anything -/
  | returned
  /-- prints, but `raise_for_status()` is a no-op (status below 400), so
  `r.json()` is still returned -/
  | printedReturned
  /-- prints the response and raises `HTTPError` -/
  | printedRaised
  /-- raises `NameError` from evaluating an undefined variable -/
  | nameError
  /-- sleeps 5 seconds and retries the identical request -/
  | sleptRetried
deriving DecidableEq

/-- `request_api` of csv_uploader.py: statuses other than
`requests.codes.ok` (200) and `requests.codes.created` (201) print the
response and call `r.raise_for_status()`, which raises exactly for
4xx/5xx statuses.  There is no server-busy branch. -/
def request_api (status : Nat) : ReqOutcome :=
  if status = 200 ∨ status = 201 then .returned
  else if 400 ≤ status ∧ status ≤ 599 then .printedRaised
  else .printedReturned

/-- The local names bound in the body of `post_to_api` of csv-uploader.py
when the status check runs (parameters, `headers`, `r`).  The name
`response` is not among them, and csv-uploader.py never imports or defines
`response` at module level either. -/
def postToApiBoundNames : List String := ["url", "data", "auth_id", "headers", "r"]

/-- `post_to_api` of csv-uploader.py: on a non-200 status the code first
evaluates `response == "<Response [400]>" or ...`; since `response` is an
unbound name this raises `NameError` before either the print-and-raise
branch or the sleep-and-retry branch (which additionally uses the
never-imported `time` module) can run. -/
def post_to_api (status : Nat) : ReqOutcome :=
  if status = 200 then .returned
  else if postToApiBoundNames.contains "response" then
    -- intended comparison of the response repr against the listed strings;
    -- unreachable because `response` is unbound
    if status = 400 ∨ status = 200 ∨ status = 300 ∨ status = 500 then .printedRaised
    else .sleptRetried
  else .nameError

/-! ## Batching (`process_file`, csv_uploader.py lines 200-222) -/

/-- One iteration of the row loop acting on the `(sent batches, rows)`
state: append the record, and when `len(rows) >= args.batchSize` send the
batch (`process_batch`) and clear `rows`. -/
def uploadStep (batchSize : Nat) (st : List (List α) × List α) (r : α) :
    List (List α) × List α :=
  let rows := st.2 ++ [r]
  if batchSize ≤ rows.length then (st.1 ++ [rows], []) else (st.1, rows)

/-- The `if rows: process_batch(args, rows)` flush after the loop. -/
def uploadFinish (p : List (List α) × List α) : List (List α) :=
  if p.2.isEmpty then p.1 else p.1 ++ [p.2]

/-- The batches sent by the row loop of `process_file`, in order, for a
given record stream. -/
def uploadBatches (batchSize : Nat) (records : List α) : List (List α) :=
  uploadFinish (records.foldl (uploadStep batchSize) ([], []))

/-- Specification-side chunking ("when batch size reaches the configured
threshold, send the batch and start a new one; send any remaining partial
batch at the end"): split a list into consecutive chunks of `bs` elements,
the last possibly shorter.  The `bs = 0` case is degenerate and only there
for totality; the claims use `0 < bs`. -/
def chunksOf (bs : Nat) : List α → List (List α)
  | [] => []
  | x :: xs =>
    if _hb : bs = 0 then [x :: xs]
    else (x :: xs).take bs :: chunksOf bs ((x :: xs).drop bs)
termination_by l => l.length
decreasing_by
  simp only [List.length_drop, List.length_cons]
  omega

/-! ## Identifier generation (`_make_id`, csv_uploader.py lines 23-31) -/

/-- Lowercase hexadecimal digit characters, as used by `'%032x'`
formatting. -/
def hexDigitChar (d : Nat) : Char :=
  match d with
  | 0 => '0' | 1 => '1' | 2 => '2' | 3 => '3' | 4 => '4'
  | 5 => '5' | 6 => '6' | 7 => '7' | 8 => '8' | 9 => '9'
  | 10 => 'a' | 11 => 'b' | 12 => 'c' | 13 => 'd' | 14 => 'e' | 15 => 'f'
  | _ => '0'

/-- Inverse of `hexDigitChar` on the hexadecimal digit characters. -/
def hexDigitVal (c : Char) : Nat :=
  match c with
  | '0' => 0 | '1' => 1 | '2' => 2 | '3' => 3 | '4' => 4
  | '5' => 5 | '6' => 6 | '7' => 7 | '8' => 8 | '9' => 9
  | 'a' => 10 | 'b' => 11 | 'c' => 12 | 'd' => 13 | 'e' => 14 | 'f' => 15
  | _ => 0

/-- Python `'%032x' % u`: the big-endian hexadecimal digits of `u`, padded
with leading zeros to (at least) 32 characters. -/
def uuidHexDigits (u : Nat) : List Char :=
  let le := Nat.digits 16 u
  List.replicate (32 - le.length) '0' ++ (le.reverse.map hexDigitChar)

/-- The `8-4-4-4-12` dash layout of `uuid.UUID.__str__`. -/
def insertUuidDashes (l : List Char) : List Char :=
  l.take 8 ++ '-' :: ((l.drop 8).take 4 ++ '-' ::
    ((l.drop 12).take 4 ++ '-' :: ((l.drop 16).take 4 ++ '-' :: l.drop 20)))

/-- Python `str(uuid.UUID(...))`. -/
def uuidToString (u : Nat) : String :=
  String.mk (insertUuidDashes (uuidHexDigits u))

/-- Left inverse of `uuidToString` at the character-list level: strip the
dashes and read the hexadecimal digits back. -/
def parseUuidChars (cl : List Char) : Nat :=
  Nat.ofDigits 16 (((cl.filter (fun c => c ≠ '-')).map hexDigitVal).reverse)

/-- The 128-bit integer of `uuid.uuid1(node, clock_seq)` as CPython's
`uuid` module assembles it from a 60-bit timestamp, the 14 low bits of the
clock sequence, and the 48-bit node: fields
`(time_low, time_mid, time_hi | version 1, clock_seq_hi | variant,
clock_seq_low, node)`.  The script always passes `node < 2^48`; the
reduction `node % 2^48` mirrors the UUID field width. -/
def mkUuid1 (ts seq node : Nat) : Nat :=
  (ts % 4294967296) * 79228162514264337593543950336 +
  ((ts / 4294967296) % 65536) * 1208925819614629174706176 +
  (((ts / 281474976710656) % 4096) + 4096) * 18446744073709551616 +
  (((seq / 256) % 64) + 128) * 72057594037927936 +
  (seq % 256) * 281474976710656 +
  (node % 281474976710656)

/-- The process-local mutable state `_make_id`/`uuid.uuid1` depend on: the
script's `_clock_seq` counter and the `uuid` module's `_last_timestamp`. -/
structure IdGen where
  clockSeq : Nat
  lastTs : Option Nat
deriving DecidableEq

/-- CPython `uuid.uuid1` timestamp monotonicity: the raw 100ns clock
reading is bumped to `_last_timestamp + 1` whenever it does not exceed
`_last_timestamp`. -/
def bumpTs (lastTs : Option Nat) (raw : Nat) : Nat :=
  match lastTs with
  | none => raw
  | some l => if raw ≤ l then l + 1 else raw

/-- `_make_id()`: increment `_clock_seq`, then
`str(uuid.uuid1(_node, _clock_seq))`.  `raw` is the wall-clock reading the
`uuid` module makes during this call. -/
def make_id (node raw : Nat) (g : IdGen) : String × IdGen :=
  let seq := g.clockSeq + 1
  let ts := bumpTs g.lastTs raw
  (uuidToString (mkUuid1 ts seq node), ⟨seq, some ts⟩)

/-- The generator state after `i` calls of `make_id`, where `raws j` is the
clock reading of call `j`. -/
def idStateAfter (node : Nat) (raws : Nat → Nat) (g0 : IdGen) : Nat → IdGen
  | 0 => g0
  | i + 1 => (make_id node (raws i) (idStateAfter node raws g0 i)).2

/-- The identifier produced by the `i`-th `make_id` call (0-based). -/
def nthAutoId (node : Nat) (raws : Nat → Nat) (g0 : IdGen) (i : Nat) : String :=
  (make_id node (raws i) (idStateAfter node raws g0 i)).1

/-! ## Record extraction (`CsvExtractor.extract_records`, csv_uploader.py
lines 78-91) -/

/-- `AUTO_PRIMARY_KEY` from the scripts. -/
def AUTO_PRIMARY_KEY : String := "_AUTO_"

/-- A CSV cell value as `csv.DictReader` produces it: a string, or `None`
for the missing cells of a short row. -/
inductive CellV where
  | vStr (s : String)
  | vNone
deriving DecidableEq

/-- `dict(zip(fieldnames, row))` with `restval=None`: one entry per field
name, the value taken positionally from the row, `None` when the row is
short. -/
def rowToRecord : List String → List String → List (String × CellV)
  | [], _ => []
  | f :: fs, [] => (f, .vNone) :: rowToRecord fs []
  | f :: fs, v :: vs => (f, .vStr v) :: rowToRecord fs vs

/-- `row['id'] = ...`: replace the value of an existing `'id'` key, or
append the key. -/
def setIdValue (rec : List (String × CellV)) (v : CellV) : List (String × CellV) :=
  if rec.any (fun p => p.1 = "id") then
    rec.map (fun p => if p.1 = "id" then (p.1, v) else p)
  else rec ++ [("id", v)]

/-- `record['id']` lookup (first matching key). -/
def idValue (rec : List (String × CellV)) : Option CellV :=
  (rec.find? (fun p => p.1 = "id")).map (fun p => p.2)

/-- `csv.DictReader` skips rows that parse to the empty list (blank
lines). -/
def nonBlankRows (rows : List (List String)) : List (List String) :=
  rows.filter (fun r => !r.isEmpty)

/-- The `for row in csv_reader: row['id'] = _make_id(); yield row` loop of
the `AUTO_PRIMARY_KEY` branch, threading the identifier-generator state;
`i` is the index of the next `make_id` call. -/
def extractAuto (node : Nat) (fns : List String) (raws : Nat → Nat) :
    Nat → IdGen → List (List String) → List (List (String × CellV)) × IdGen
  | _, g, [] => ([], g)
  | i, g, r :: rs =>
    let idg := make_id node (raws i) g
    let rest := extractAuto node fns raws (i + 1) idg.2 rs
    (setIdValue (rowToRecord fns r) (.vStr idg.1) :: rest.1, rest.2)

/-- `CsvExtractor.extract_records`: reopen the file, skip the first
(non-blank) row with `next(csv_reader)`, and yield one record per remaining
row, adding an `'id'` in `AUTO_PRIMARY_KEY` mode.  `none` models the
`StopIteration`/`RuntimeError` that `next` raises when the file has no rows
at all. -/
def extract_records (node : Nat) (pk : String) (fns : List String)
    (raws : Nat → Nat) (g0 : IdGen) (fileRows : List (List String)) :
    Option (List (List (String × CellV)) × IdGen) :=
  match nonBlankRows fileRows with
  | [] => none
  | _ :: dataRows =>
    if pk = AUTO_PRIMARY_KEY then some (extractAuto node fns raws 0 g0 dataRows)
    else some (dataRows.map (rowToRecord fns), g0)

/-! ## Literal-list coercion (`process_file`, csv_uploader.py lines 201-213) -/

/-- A parsed Python literal, restricted to the fragment relevant here:
integers, floats and (nested) lists.  Inputs outside the fragment simply
fail to parse, which the coercion treats the same as any other
`ValueError`/`SyntaxError`. -/
inductive PyLit where
  | pyInt (n : Int)
  | pyFloat (neg : Bool) (ip fp : Nat)
  | pyList (xs : List PyLit)

/-- Whether a literal is a Python `list` (`isinstance(value_array, list)`). -/
def PyLit.isList : PyLit → Bool
  | .pyList _ => true
  | _ => false

/-- Decimal digit characters to a natural number. -/
def digitsToNat (ds : List Char) : Nat :=
  ds.foldl (fun n c => n * 10 + (c.toNat - 48)) 0

/-- Parse a signed decimal integer or float literal, returning the rest of
the input. -/
def parseNumber (s : List Char) : Option (PyLit × List Char) :=
  let neg := s.head? = some '-'
  let s1 := if neg then s.tail else s
  let ds := s1.takeWhile (fun c => c.isDigit)
  let r1 := s1.dropWhile (fun c => c.isDigit)
  if ds.isEmpty then none
  else
    match r1 with
    | '.' :: r2 =>
      let fs := r2.takeWhile (fun c => c.isDigit)
      let r3 := r2.dropWhile (fun c => c.isDigit)
      if fs.isEmpty then none
      else some (.pyFloat neg (digitsToNat ds) (digitsToNat fs), r3)
    | _ =>
      let n : Int := Int.ofNat (digitsToNat ds)
      some (.pyInt (if neg then -n else n), r1)

mutual

/-- Modelled from the documented behaviour of `ast.literal_eval` on the
numeric/list fragment: a value is a bracketed comma-separated list or a
number; surrounding spaces are ignored.  `fuel` bounds the recursion. -/
def parseVal : Nat → List Char → Option (PyLit × List Char)
  | 0, _ => none
  | fuel + 1, s =>
    let s1 := s.dropWhile (fun c => c = ' ')
    match s1 with
    | '[' :: rest =>
      let rest1 := rest.dropWhile (fun c => c = ' ')
      match rest1 with
      | ']' :: rr => some (.pyList [], rr)
      | _ => parseItems fuel rest1 []
    | _ => parseNumber s1

/-- Comma-separated list elements up to the closing bracket. -/
def parseItems : Nat → List Char → List PyLit → Option (PyLit × List Char)
  | 0, _, _ => none
  | fuel + 1, s, acc =>
    match parseVal fuel s with
    | none => none
    | some (v, r) =>
      let r1 := r.dropWhile (fun c => c = ' ')
      match r1 with
      | ',' :: rr => parseItems fuel rr (acc ++ [v])
      | ']' :: rr => some (.pyList (acc ++ [v]), rr)
      | _ => none

end

/-- `ast.literal_eval` on the numeric/list fragment: parse the whole
string; any leftover non-space input is a `SyntaxError` (`none`). -/
def literal_eval (s : String) : Option PyLit :=
  match parseVal (s.length + 1) s.toList with
  | some (v, rest) => if (rest.dropWhile (fun c => c = ' ')).isEmpty then some v else none
  | none => none

/-- A record value after the coercion step: the original string, or a
substituted list / element / `None`. -/
inductive PyVal where
  | vStr (s : String)
  | vList (xs : List PyLit)
  | vLit (l : PyLit)
  | vNull

/-- The per-value body of the row loop of `process_file`: try
`ast.literal_eval`; if the result is a list, substitute the list (length
greater than 1), its sole element (length 1), or `None` (empty); any parse
failure (`SyntaxError`/`ValueError`) or non-list result leaves the value
untouched. -/
def coerceValue (parse : String → Option PyLit) (v : String) : PyVal :=
  match parse v with
  | some (.pyList xs) =>
    if 1 < xs.length then .vList xs
    else
      match xs with
      | x :: _ => .vLit x
      | [] => .vNull
  | _ => .vStr v

/-! ## Request flow of `process_file` (csv_uploader.py lines 134-228) -/

/-- The HTTP requests `process_file` can issue, in uploader terms.  Request
payloads are elided; `postRows` records the batch size. -/
inductive Req where
  | createDataset
  | updateFields
  | clearRows
  | postRows (n : Nat)
  | indexDataset
deriving DecidableEq

/-- The fatal errors of `process_file` relevant to the claims. -/
inductive UpErr where
  | fieldDefErr (msg : String)
  | missingPkErr
deriving DecidableEq

/-- The command-line arguments that steer the control flow of
`process_file` (payload-only arguments such as `--name` are elided). -/
structure UpArgs where
  datasetId : Option String
  primaryKey : String
  fieldsArg : Option (List FieldDef)
  clear : Bool
  index : Bool
  batchSize : Nat
deriving DecidableEq

/-- The request trace of `process_file` after field-file validation: the
dataset-creation branch (with its primary-key check), the update-fields
branch, the optional clear, the batched row uploads, and the final index
request when incremental indexing was not requested.  All issued requests
are assumed to succeed (the HTTP layer itself is modelled separately by
`request_api`). -/
def mainFlow {α : Type} (args : UpArgs) (fieldnames : List String)
    (records : List α) : List Req × Option UpErr :=
  let tailReqs :=
    (if args.clear then [Req.clearRows] else []) ++
    ((uploadBatches args.batchSize records).map (fun b => Req.postRows b.length)) ++
    (if args.index then [] else [Req.indexDataset])
  match args.datasetId with
  | none =>
    if args.primaryKey ≠ AUTO_PRIMARY_KEY ∧ args.primaryKey ∉ fieldnames then
      ([], some .missingPkErr)
    else (Req.createDataset :: tailReqs, none)
  | some _ =>
    match args.fieldsArg with
    | some _ => (Req.updateFields :: tailReqs, none)
    | none => (tailReqs, none)

/-- `process_file`: validate the field-definition file (if supplied), then
run the request flow.  The result is the list of issued requests and the
fatal error, if any. -/
def process_file {α : Type} (args : UpArgs) (fieldnames : List String)
    (records : List α) : List Req × Option UpErr :=
  match args.fieldsArg with
  | some fdefs =>
    match validate_fields fdefs with
    | .error m => ([], some (.fieldDefErr m))
    | .ok _ => mainFlow args fieldnames records
  | none => mainFlow args fieldnames records

/-! ## Concrete instances used by the claim theorems -/

/-- The six-entry field list of the claim's example: entry 2 is missing
`'type'`, entry 5 has the invalid type `blah`, all other entries are
valid. -/
def c5sample : List FieldDef :=
  [⟨some "a", some "string"⟩, ⟨some "b", some "date"⟩, ⟨some "c", none⟩,
   ⟨some "d", some "time"⟩, ⟨some "e", some "boolean"⟩, ⟨some "f", some "blah"⟩]

/-- The exact `FieldError` message of the example: both violations, joined
by a newline, in entry order. -/
def c5msg : String :=
  "Missing \x27type\x27 attribute from field 2\nInvalid type blah for field 5.  Must be one of \"string\", \"integer\", \"double\", \"currency\", \"date\", \"time\", \"datetime\", \"boolean\", \"geo_shape\", \"geo_point\""

/-- Arguments with a dataset id supplied and a primary key that does not
occur in the file's columns. -/
def c7args : UpArgs := ⟨some "d", "missing", none, false, false, 1⟩

/-- Arguments for the C7 witness: creation path (no dataset id), primary
key `x`, empty column list. -/
def c7noIdArgs : UpArgs := ⟨none, "x", none, false, false, 1⟩

/-- The records the `AUTO_PRIMARY_KEY` branch produces from `rows` when the
next `make_id` call is the `j`-th of the run (closed form of
`extractAuto`). -/
def expectedAuto (node : Nat) (fns : List String) (raws : Nat → Nat) (g0 : IdGen) :
    Nat → List (List String) → List (List (String × CellV))
  | _, [] => []
  | j, r :: rs =>
    setIdValue (rowToRecord fns r) (.vStr (nthAutoId node raws g0 j)) ::
      expectedAuto node fns raws g0 (j + 1) rs

/-- The timestamp used by the `i`-th `make_id` call of a run. -/
def tsOf (node : Nat) (raws : Nat → Nat) (g0 : IdGen) (i : Nat) : Nat :=
  bumpTs (idStateAfter node raws g0 i).lastTs (raws i)

/-! ## Claim C1: encoding selection -/

theorem tryEncodings_found (decode : String → Except String Unit) :
    ∀ (l : List String) (exc : Option String) (enc : String),
      l.find? (fun c => exOk (decode c)) = some enc →
      tryEncodings decode l exc = .ok (some enc) := by
  intro l
  induction l with
  | nil => intro exc enc h; simp at h
  | cons c rest ih =>
    intro exc enc h
    rw [List.find?_cons] at h
    cases hb : exOk (decode c) with
    | true =>
      rw [hb] at h
      simp at h
      subst h
      cases hd : decode c with
      | ok u => simp [tryEncodings, hd]
      | error e => rw [hd] at hb; simp [exOk] at hb
    | false =>
      rw [hb] at h
      simp at h
      cases hd : decode c with
      | ok u => rw [hd] at hb; simp [exOk] at hb
      | error e =>
        simp only [tryEncodings, hd]
        exact ih _ enc h

theorem tryEncodings_allFail (decode : String → Except String Unit) :
    ∀ (l : List String) (lastc e : String),
      (∀ c ∈ l, exOk (decode c) = false) →
      l.getLast? = some lastc → decode lastc = .error e →
      ∀ exc, tryEncodings decode l exc = .error e := by
  intro l
  induction l with
  | nil => intro lastc e _ hlast; simp at hlast
  | cons c rest ih =>
    intro lastc e hall hlast hdec exc
    cases hd : decode c with
    | ok u =>
      have := hall c (by simp)
      rw [hd] at this
      simp [exOk] at this
    | error e1 =>
      cases rest with
      | nil =>
        simp at hlast
        subst hlast
        rw [hd] at hdec
        cases hdec
        simp [tryEncodings, hd]
      | cons c2 rest2 =>
        have hlast2 : (c2 :: rest2).getLast? = some lastc := by
          rw [← hlast]; rfl
        simp only [tryEncodings, hd]
        exact ih lastc e (fun x hx => hall x (by simp [hx])) hlast2 hdec (some e1)

/-- Claim C1: for every file decodable by at least one candidate encoding,
`CsvExtractor.__init__` selects the first encoding of
`['utf-8-sig', 'utf-8', 'iso-8859-1', 'ascii']` (in that priority order)
that lets the entire file be read without a decoding failure; if every
candidate fails, construction raises the exception of the last attempted
candidate (`'ascii'`). -/
theorem c1_encoding_first_success (decode : String → Except String Unit) :
    (∀ enc, encodingCandidates.find? (fun c => exOk (decode c)) = some enc →
      selectEncoding decode = .ok (some enc)) ∧
    (∀ e, (∀ c ∈ encodingCandidates, exOk (decode c) = false) →
      decode "ascii" = .error e →
      selectEncoding decode = .error e) := by
  constructor
  · intro enc h
    exact tryEncodings_found decode _ none enc h
  · intro e hall hd
    exact tryEncodings_allFail decode encodingCandidates "ascii" e hall (by rfl) hd none

/-- Witness for C1 at two concrete decode functions: one where only
`utf-8` succeeds (and is selected over the later candidates), and one where
every candidate fails (and the `ascii` failure is raised). -/
theorem c1_encoding_first_success_witness :
    selectEncoding (fun enc => if enc = "utf-8" then .ok () else .error ("fail " ++ enc)) =
      .ok (some "utf-8") ∧
    selectEncoding (fun enc => .error ("fail " ++ enc)) = .error "fail ascii" := by
  constructor
  · exact (c1_encoding_first_success _).1 "utf-8" (by decide)
  · exact (c1_encoding_first_success _).2 "fail ascii" (by decide) (by rfl)

/-! ## Claim C2: server-busy handling -/

/-- Claim C2 (code bug): the claim says a non-success status other than
server-busy prints the body and raises, while a server-busy (503) status
sleeps 5 seconds and retries.  The code does neither: `request_api` of
csv_uploader.py prints and raises for every status outside `{200, 201}`
(including 503 — it has no busy branch at all), and `post_to_api` of
csv-uploader.py raises `NameError` for every non-200 status, because its
status dispatch reads the never-defined name `response` (and the retry
branch also calls the never-imported `time` module), so the documented
retry is unreachable. -/
theorem c2_server_busy_code_bug :
    request_api 503 = ReqOutcome.printedRaised ∧
    post_to_api 503 = ReqOutcome.nameError ∧
    post_to_api 400 = ReqOutcome.nameError ∧
    request_api 200 = ReqOutcome.returned ∧
    post_to_api 200 = ReqOutcome.returned := by
  decide

/-! ## Claim C4: literal-list coercion -/

/-- Claim C4: during row streaming, `"[1, 2]"` becomes the list `[1, 2]`,
`"[1]"` becomes the element `1`, `"[]"` becomes `None`, `"abc"` is left
unchanged, and `"3.5"` is left as the original string even though it
parses (to a non-list); in general, a value is substituted only when it
parses to a list literal — any parse failure or non-list parse result
leaves the original string untouched. -/
theorem c4_literal_list_coercion :
    coerceValue literal_eval "[1, 2]" = .vList [.pyInt 1, .pyInt 2] ∧
    coerceValue literal_eval "[1]" = .vLit (.pyInt 1) ∧
    coerceValue literal_eval "[]" = .vNull ∧
    coerceValue literal_eval "abc" = .vStr "abc" ∧
    literal_eval "3.5" = some (.pyFloat false 3 5) ∧
    coerceValue literal_eval "3.5" = .vStr "3.5" ∧
    (∀ (parse : String → Option PyLit) (v : String),
      parse v = none ∨ (∃ l, parse v = some l ∧ l.isList = false) →
      coerceValue parse v = .vStr v) := by
  refine ⟨by rfl, by rfl, by rfl, by rfl, by rfl, by rfl, ?_⟩
  intro parse v h
  rcases h with hnone | ⟨l, hl, hnot⟩
  · simp [coerceValue, hnone]
  · cases l with
    | pyInt n => simp [coerceValue, hl]
    | pyFloat ng i f => simp [coerceValue, hl]
    | pyList xs => simp [PyLit.isList] at hnot

/-- Witness for C4's universal clause at the concrete value `"xy"`, which
fails to parse. -/
theorem c4_literal_list_coercion_witness :
    coerceValue literal_eval "xy" = .vStr "xy" :=
  c4_literal_list_coercion.2.2.2.2.2.2 literal_eval "xy" (Or.inl (by rfl))

/-! ## Claim C5: validator collects all violations -/

theorem fieldEntryErrors_nil_iff (i : Nat) (f : FieldDef) :
    fieldEntryErrors i f = [] ↔ entryOk f = true := by
  obtain ⟨ofield, otype⟩ := f
  cases ofield <;> cases otype <;>
    simp [fieldEntryErrors, entryOk]

theorem collectFieldErrors_nil_iff :
    ∀ (fs : List FieldDef) (i : Nat),
      collectFieldErrors i fs = [] ↔ ∀ f ∈ fs, entryOk f = true := by
  intro fs
  induction fs with
  | nil => intro i; simp [collectFieldErrors]
  | cons f rest ih =>
    intro i
    simp only [collectFieldErrors, List.append_eq_nil, List.mem_cons]
    rw [fieldEntryErrors_nil_iff, ih]
    constructor
    · rintro ⟨h1, h2⟩ g (rfl | hg)
      · exact h1
      · exact h2 g hg
    · intro h
      exact ⟨h f (Or.inl rfl), fun g hg => h g (Or.inr hg)⟩

/-- Claim C5: `validate_fields` collects all violations (missing `'field'`
key, missing `'type'` key, disallowed `'type'` value) across all entries
into one newline-joined message and raises iff at least one violation
exists; in particular the example list with `'type'` missing on entry 2 and
invalid on entry 5 produces a single message referencing both entries. -/
theorem c5_validate_collects_all :
    validate_fields c5sample = .error c5msg ∧
    (∀ fields : List FieldDef,
      validate_fields fields = .ok () ↔ ∀ f ∈ fields, entryOk f = true) := by
  constructor
  · rfl
  · intro fields
    rw [← collectFieldErrors_nil_iff fields 0]
    unfold validate_fields
    cases h : collectFieldErrors 0 fields with
    | nil => simp
    | cons e rest => simp

/-- Witness for C5's validity characterization at a concrete valid list. -/
theorem c5_validate_collects_all_witness :
    validate_fields [⟨some "a", some "string"⟩] = .ok () :=
  (c5_validate_collects_all.2 _).mpr (by decide)

/-! ## Claim C7: missing primary key (corrected) -/

/-- Counterexample to claim C7 as stated: with a dataset id supplied, a
declared primary key that is neither the auto sentinel nor one of the
extracted column names does NOT cause a fatal failure — the run issues the
row-upload request (and the index request) normally, because the
primary-key check only runs in the dataset-creation branch. -/
theorem c7_counterexample :
    (process_file c7args ["a"] [()]).2 = none ∧
    Req.postRows 1 ∈ (process_file c7args ["a"] [()]).1 ∧
    c7args.primaryKey ≠ AUTO_PRIMARY_KEY ∧
    c7args.primaryKey ∉ ["a"] := by
  decide

/-- Claim C7 (amended): when NO dataset id is supplied (the
dataset-creation path), a declared primary key that is not the
auto-generated-identifier sentinel and is absent from the file's extracted
column names makes `process_file` fail fatally before any HTTP request
(in particular any upload) is issued; when a dataset id is supplied the
check is skipped. -/
theorem c7_missing_pk_amended {α : Type} (args : UpArgs) (fieldnames : List String)
    (records : List α) (hd : args.datasetId = none)
    (hpk : args.primaryKey ≠ AUTO_PRIMARY_KEY)
    (hmem : args.primaryKey ∉ fieldnames) :
    (process_file args fieldnames records).1 = [] ∧
    (process_file args fieldnames records).2.isSome = true := by
  have hmain : mainFlow args fieldnames records = ([], some UpErr.missingPkErr) := by
    unfold mainFlow
    rw [hd]
    simp [hpk, hmem]
  unfold process_file
  cases hf : args.fieldsArg with
  | none => simp [hmain]
  | some fdefs =>
    cases hv : validate_fields fdefs with
    | error m => simp [hv]
    | ok u => simp [hv, hmain]

/-- Witness for C7 (amended) at concrete arguments. -/
theorem c7_missing_pk_amended_witness :
    (process_file c7noIdArgs [] ([] : List Unit)).1 = [] ∧
    (process_file c7noIdArgs [] ([] : List Unit)).2.isSome = true :=
  c7_missing_pk_amended c7noIdArgs [] [] (by rfl) (by decide) (by decide)

/-! ## Claim C6: batching -/

theorem chunksOf_cons_eq {α : Type} (bs : Nat) (hb : bs ≠ 0) (x : α) (xs : List α) :
    chunksOf bs (x :: xs) =
      (x :: xs).take bs :: chunksOf bs ((x :: xs).drop bs) := by
  rw [chunksOf]
  simp [hb]

theorem chunksOf_ne_nil_eq {α : Type} (bs : Nat) (hb : bs ≠ 0) (l : List α) (hl : l ≠ []) :
    chunksOf bs l = l.take bs :: chunksOf bs (l.drop bs) := by
  cases l with
  | nil => exact absurd rfl hl
  | cons x xs => exact chunksOf_cons_eq bs hb x xs

theorem uploadFoldl_eq_chunksOf {α : Type} (bs : Nat) (hb : 0 < bs) :
    ∀ (recs : List α) (acc : List (List α)) (rows : List α),
      rows.length < bs →
      uploadFinish (recs.foldl (uploadStep bs) (acc, rows)) =
        acc ++ chunksOf bs (rows ++ recs) := by
  intro recs
  induction recs with
  | nil =>
    intro acc rows hrows
    simp only [List.foldl_nil, List.append_nil]
    cases rows with
    | nil => simp [uploadFinish, chunksOf]
    | cons r rs =>
      rw [chunksOf_cons_eq bs (by omega)]
      rw [List.take_of_length_le (Nat.le_of_lt hrows)]
      rw [List.drop_eq_nil_of_le (Nat.le_of_lt hrows)]
      simp [uploadFinish, chunksOf]
  | cons r rest ih =>
    intro acc rows hrows
    simp only [List.foldl_cons]
    by_cases hfull : bs ≤ (rows ++ [r]).length
    · have hfull2 : bs ≤ rows.length + 1 := by simpa using hfull
      have hstep : uploadStep bs (acc, rows) r = (acc ++ [rows ++ [r]], []) := by
        simp [uploadStep, hfull2]
      have hlen : (rows ++ [r]).length = bs := by
        simp only [List.length_append, List.length_cons, List.length_nil]
        omega
      have hne : (rows ++ [r]) ++ rest ≠ [] := by
        intro habs
        have hlen2 : (((rows ++ [r]) ++ rest)).length = 0 := by rw [habs]; rfl
        rw [List.length_append, hlen] at hlen2
        omega
      have hchunks : chunksOf bs ((rows ++ [r]) ++ rest) =
          (rows ++ [r]) :: chunksOf bs rest := by
        rw [chunksOf_ne_nil_eq bs (by omega) _ hne]
        rw [List.take_left' hlen, List.drop_left' hlen]
      have hsplit : rows ++ r :: rest = (rows ++ [r]) ++ rest := by simp
      rw [hstep, ih (acc ++ [rows ++ [r]]) [] (by simpa using hb), hsplit, hchunks]
      simp
    · have hfull2 : ¬bs ≤ rows.length + 1 := by simpa using hfull
      have hstep : uploadStep bs (acc, rows) r = (acc, rows ++ [r]) := by
        simp [uploadStep, hfull2]
      have hlt : (rows ++ [r]).length < bs := by
        simp only [List.length_append, List.length_cons, List.length_nil]
        omega
      rw [hstep, ih acc (rows ++ [r]) hlt]
      simp

/-- Claim C6: records are accumulated into a batch that is sent exactly
when it reaches the configured batch size, and any remaining partial batch
is sent after the stream ends — i.e. the sent batches are exactly the
consecutive size-`bs` chunks of the record stream with a shorter final
chunk; in particular 7 records with batch size 3 yield exactly 3 uploads of
sizes 3, 3, 1, in order. -/
theorem c6_batching :
    (∀ {α : Type} (bs : Nat), 0 < bs → ∀ recs : List α,
      uploadBatches bs recs = chunksOf bs recs) ∧
    (∀ {β : Type} (a b c d e f g : β),
      uploadBatches 3 [a, b, c, d, e, f, g] = [[a, b, c], [d, e, f], [g]]) := by
  constructor
  · intro α bs hb recs
    unfold uploadBatches
    simpa using uploadFoldl_eq_chunksOf bs hb recs [] [] (by simpa using hb)
  · intro β a b c d e f g
    simp [uploadBatches, uploadFinish, uploadStep, List.foldl]

/-- Witness for C6 at batch size 3 and the seven concrete records
`0..6`. -/
theorem c6_batching_witness :
    uploadBatches 3 [0, 1, 2, 3, 4, 5, 6] = chunksOf 3 [0, 1, 2, 3, 4, 5, 6] ∧
    uploadBatches 3 [0, 1, 2, 3, 4, 5, 6] = [[0, 1, 2], [3, 4, 5], [6]] :=
  ⟨c6_batching.1 3 (by decide) [0, 1, 2, 3, 4, 5, 6],
   c6_batching.2 0 1 2 3 4 5 6⟩

/-! ## Normalization lemmas (claims C3 and C10) -/

theorem head?_dropWhile_false (p : Char → Bool) :
    ∀ (l : List Char) (c : Char), (l.dropWhile p).head? = some c → p c = false := by
  intro l
  induction l with
  | nil => intro c h; simp at h
  | cons a l ih =>
    intro c h
    rw [List.dropWhile_cons] at h
    by_cases hp : p a = true
    · rw [if_pos hp] at h
      exact ih c h
    · rw [if_neg hp] at h
      simp at h
      rw [← h]
      simpa using hp

theorem getLast?_dropWhile (p : Char → Bool) :
    ∀ l : List Char, l.dropWhile p ≠ [] → (l.dropWhile p).getLast? = l.getLast? := by
  intro l
  induction l with
  | nil => intro h; simp at h
  | cons a l ih =>
    intro h
    rw [List.dropWhile_cons] at h ⊢
    by_cases hp : p a = true
    · rw [if_pos hp] at h ⊢
      have hl : l ≠ [] := by
        intro habs
        rw [habs] at h
        simp at h
      rw [ih h]
      cases l with
      | nil => exact absurd rfl hl
      | cons b l2 => rw [List.getLast?_cons_cons]
    · rw [if_neg hp]

theorem dropWhile_eq_self_of_head (p : Char → Bool) (l : List Char)
    (h : ∀ c, l.head? = some c → p c = false) : l.dropWhile p = l := by
  cases l with
  | nil => rfl
  | cons a l =>
    rw [List.dropWhile_cons, if_neg]
    simp [h a rfl]

theorem stripL_head_not_ws (s : List Char) (c : Char)
    (h : (stripL s).head? = some c) : pyWhitespace c = false := by
  unfold stripL at h
  rw [List.head?_reverse] at h
  have h2 : ((s.dropWhile pyWhitespace).reverse.dropWhile pyWhitespace) ≠ [] := by
    intro habs
    rw [habs] at h
    simp at h
  rw [getLast?_dropWhile pyWhitespace _ h2, List.getLast?_reverse] at h
  exact head?_dropWhile_false pyWhitespace _ c h

theorem stripL_getLast_not_ws (s : List Char) (c : Char)
    (h : (stripL s).getLast? = some c) : pyWhitespace c = false := by
  unfold stripL at h
  rw [List.getLast?_reverse] at h
  exact head?_dropWhile_false pyWhitespace _ c h

theorem replaceDots_no_dot (s : List Char) : ∀ c ∈ replaceDots s, c ≠ '.' := by
  intro c hc
  unfold replaceDots at hc
  obtain ⟨a, _, rfl⟩ := List.mem_map.mp hc
  by_cases h : a = '.' <;> simp [h]

theorem replaceDots_eq_self : ∀ s : List Char, (∀ c ∈ s, c ≠ '.') → replaceDots s = s := by
  intro s
  induction s with
  | nil => intro _; rfl
  | cons a l ih =>
    intro h
    unfold replaceDots at ih ⊢
    simp only [List.map_cons]
    rw [if_neg (h a (by simp)), ih (fun c hc => h c (by simp [hc]))]

theorem replaceDots_not_ws (s : List Char) (c : Char) (hc : c ∈ replaceDots s)
    (hws : ∀ d ∈ s, pyWhitespace d = false) : pyWhitespace c = false := by
  unfold replaceDots at hc
  obtain ⟨a, ha, rfl⟩ := List.mem_map.mp hc
  by_cases h : a = '.'
  · simp [h, pyWhitespace]
  · rw [if_neg h]
    exact hws a ha

theorem rotAux_no_underscore (fuel : Nat) (s : List Char)
    (h : s.head? ≠ some '_') : rotAux fuel s = some s := by
  cases fuel <;> simp [rotAux, h]

theorem rotAux_rotate :
    ∀ (k fuel : Nat) (c : Char) (ts : List Char), c ≠ '_' → k ≤ fuel →
      rotAux fuel (List.replicate k '_' ++ c :: ts) =
        some ((c :: ts) ++ List.replicate k '_') := by
  intro k
  induction k with
  | zero =>
    intro fuel c ts hc _
    simpa using rotAux_no_underscore fuel (c :: ts) (by simp [hc])
  | succ k ih =>
    intro fuel c ts hc hk
    cases fuel with
    | zero => omega
    | succ f =>
      have hcons : List.replicate (k + 1) '_' ++ c :: ts =
          '_' :: (List.replicate k '_' ++ c :: ts) := by
        simp [List.replicate_succ]
      rw [hcons]
      simp only [rotAux, List.head?_cons, if_pos rfl, List.tail_cons, reduceIte]
      have h2 : (List.replicate k '_' ++ c :: ts) ++ ['_'] =
          List.replicate k '_' ++ c :: (ts ++ ['_']) := by
        simp
      rw [h2, ih f c (ts ++ ['_']) hc (by omega)]
      congr 1
      simp [List.replicate_succ']
      rw [← List.replicate_succ', List.replicate_succ]

theorem underscore_decomp (u : List Char) :
    u = List.replicate (u.takeWhile (fun ch => ch = '_')).length '_' ++
      u.dropWhile (fun ch => ch = '_') := by
  have h2 : u.takeWhile (fun ch => ch = '_') =
      List.replicate (u.takeWhile (fun ch => ch = '_')).length '_' := by
    apply List.eq_replicate_of_mem
    intro b hb
    have := List.mem_takeWhile_imp hb
    simpa using this
  conv_lhs => rw [← List.takeWhile_append_dropWhile (fun ch => ch = '_') u]
  rw [← h2]

theorem replaceDots_getLast_not_ws (s : List Char) (d : Char)
    (h : (replaceDots (stripL s)).getLast? = some d) : pyWhitespace d = false := by
  unfold replaceDots at h
  rw [← List.head?_reverse, ← List.map_reverse, List.head?_map] at h
  cases hh : (stripL s).reverse.head? with
  | none => rw [hh] at h; simp at h
  | some d0 =>
    rw [hh] at h
    simp at h
    have hd0 : pyWhitespace d0 = false := by
      rw [List.head?_reverse] at hh
      exact stripL_getLast_not_ws s d0 hh
    rw [← h]
    by_cases hd : d0 = '.'
    · simp [hd, pyWhitespace]
    · simp [hd, hd0]

theorem normalizeName_eq_of_drop (s : List Char) (c : Char) (ts : List Char)
    (hdrop : (replaceDots (stripL s)).dropWhile (fun ch => ch = '_') = c :: ts) :
    normalizeName s = some ((c :: ts) ++
      List.replicate ((replaceDots (stripL s)).takeWhile (fun ch => ch = '_')).length '_') := by
  have hc : c ≠ '_' := by
    have hf := head?_dropWhile_false (fun ch => ch = '_') (replaceDots (stripL s)) c
      (by rw [hdrop]; rfl)
    simpa using hf
  obtain ⟨k, hk⟩ : ∃ k, ((replaceDots (stripL s)).takeWhile (fun ch => ch = '_')).length = k :=
    ⟨_, rfl⟩
  have hdecomp : replaceDots (stripL s) = List.replicate k '_' ++ c :: ts := by
    conv_lhs => rw [underscore_decomp (replaceDots (stripL s))]
    rw [hk, hdrop]
  unfold normalizeName rotateUnderscores
  rw [hk, hdecomp]
  apply rotAux_rotate _ _ c ts hc
  simp

theorem normalizeName_fixpoint (s : List Char) (c : Char) (ts : List Char)
    (hdrop : (replaceDots (stripL s)).dropWhile (fun ch => ch = '_') = c :: ts)
    (hws : pyWhitespace c = false) :
    normalizeName ((c :: ts) ++
      List.replicate ((replaceDots (stripL s)).takeWhile (fun ch => ch = '_')).length '_') =
    some ((c :: ts) ++
      List.replicate ((replaceDots (stripL s)).takeWhile (fun ch => ch = '_')).length '_') := by
  have hc : c ≠ '_' := by
    have hf := head?_dropWhile_false (fun ch => ch = '_') (replaceDots (stripL s)) c
      (by rw [hdrop]; rfl)
    simpa using hf
  set k := ((replaceDots (stripL s)).takeWhile (fun ch => ch = '_')).length with hk
  set v := (c :: ts) ++ List.replicate k '_' with hv
  have hhead : v.head? = some c := rfl
  have hlast : ∀ d, v.getLast? = some d → pyWhitespace d = false := by
    intro d hd
    cases hk0 : k with
    | zero =>
      rw [hv, hk0] at hd
      simp only [List.replicate, List.append_nil] at hd
      have hlast2 : ((replaceDots (stripL s)).dropWhile (fun ch => ch = '_')).getLast? =
          some d := by rw [hdrop]; exact hd
      rw [getLast?_dropWhile _ _ (by rw [hdrop]; exact List.cons_ne_nil c ts)] at hlast2
      exact replaceDots_getLast_not_ws s d hlast2
    | succ k2 =>
      rw [hv, hk0, List.replicate_succ', ← List.append_assoc, List.getLast?_concat] at hd
      cases hd
      decide
  have hstrip : stripL v = v := by
    unfold stripL
    rw [dropWhile_eq_self_of_head _ v
      (fun d hd => by rw [hhead] at hd; cases hd; exact hws)]
    rw [dropWhile_eq_self_of_head _ v.reverse
      (fun d hd => hlast d (by rwa [List.head?_reverse] at hd))]
    exact List.reverse_reverse v
  have hnodot : ∀ d ∈ v, d ≠ '.' := by
    intro d hd
    rcases List.mem_append.mp hd with h1 | h2
    · have h3 : d ∈ (replaceDots (stripL s)).dropWhile (fun ch => ch = '_') := by
        rw [hdrop]; exact h1
      exact replaceDots_no_dot (stripL s) d ((List.dropWhile_sublist _).subset h3)
    · have : d = '_' := List.eq_of_mem_replicate h2
      simp [this]
  unfold normalizeName
  rw [hstrip, replaceDots_eq_self v hnodot]
  unfold rotateUnderscores
  exact rotAux_no_underscore _ v (by rw [hhead]; simp [hc])

/-- Counterexample to claim C3 as stated: normalization is NOT idempotent.
The name `"_ a"` (underscore, space, letter) normalizes to `" a_"` — the
rotation exposes an interior space at the front, which a second
normalization then strips, giving the different name `"a_"`. -/
theorem c3_normalization_not_idempotent :
    normalizeName "_ a".toList = some " a_".toList ∧
    (normalizeName "_ a".toList).bind normalizeName = some "a_".toList ∧
    " a_".toList ≠ "a_".toList := by
  decide

/-- Claim C3 (amended): for every name whose leading underscore run (taken
after trimming and dot replacement) is followed by a non-whitespace
character, normalization moves the entire run to the end exactly once, and
the result is a fixed point of normalization (so normalization is
idempotent on such names; it is not idempotent in general, see the
counterexample where the character after the run is a space). -/
theorem c3_normalization_amended (s : List Char) (c : Char) (ts : List Char)
    (hdrop : (replaceDots (stripL s)).dropWhile (fun ch => ch = '_') = c :: ts)
    (hws : pyWhitespace c = false) :
    normalizeName s = some ((c :: ts) ++
      List.replicate ((replaceDots (stripL s)).takeWhile (fun ch => ch = '_')).length '_') ∧
    normalizeName ((c :: ts) ++
      List.replicate ((replaceDots (stripL s)).takeWhile (fun ch => ch = '_')).length '_') =
    some ((c :: ts) ++
      List.replicate ((replaceDots (stripL s)).takeWhile (fun ch => ch = '_')).length '_') :=
  ⟨normalizeName_eq_of_drop s c ts hdrop, normalizeName_fixpoint s c ts hdrop hws⟩

/-- Witness for C3 (amended) at the concrete name `"_a"`. -/
theorem c3_normalization_amended_witness :
    ∃ v, normalizeName "_a".toList = some v ∧ normalizeName v = some v := by
  obtain ⟨h1, h2⟩ := c3_normalization_amended "_a".toList 'a' [] (by decide) (by decide)
  exact ⟨_, h1, h2⟩

theorem normalizeHeader_some :
    ∀ names : List (List Char),
      (∀ nm ∈ names, ∃ c ∈ replaceDots (stripL nm), c ≠ '_') →
      ∃ l, normalizeHeader names = some l := by
  intro names
  induction names with
  | nil => intro _; exact ⟨[], rfl⟩
  | cons nm rest ih =>
    intro hnames
    obtain ⟨c, hc, hcne⟩ := hnames nm (by simp)
    have hdropne : (replaceDots (stripL nm)).dropWhile (fun ch => ch = '_') ≠ [] := by
      intro habs
      rw [List.dropWhile_eq_nil_iff] at habs
      have := habs c hc
      simp at this
      exact hcne this
    obtain ⟨c2, ts, hdrop⟩ :
        ∃ c2 ts, (replaceDots (stripL nm)).dropWhile (fun ch => ch = '_') = c2 :: ts := by
      cases hd : (replaceDots (stripL nm)).dropWhile (fun ch => ch = '_') with
      | nil => exact absurd hd hdropne
      | cons x xs => exact ⟨x, xs, rfl⟩
    have hnm := normalizeName_eq_of_drop nm c2 ts hdrop
    obtain ⟨lrest, hrest⟩ := ih (fun m hm => hnames m (by simp [hm]))
    have hres : normalizeHeader (nm :: rest) =
        some ((c2 :: (ts ++ List.replicate
          ((replaceDots (stripL nm)).takeWhile (fun ch => ch = '_')).length '_')) :: lrest) := by
      simp [normalizeHeader, hnm, hrest]
    exact ⟨_, hres⟩

/-- Claim C10: the leading-underscore rotation loop of
`CsvExtractor.__init__` (csv_uploader.py) does not terminate on a field
name that, after trimming and dot replacement, is a non-empty
all-underscore string — for every fuel bound the loop is still running
(each iteration removes the first underscore and appends one, so the guard
stays true); and field-name construction terminates for every header whose
names each contain (after trimming and dot replacement) at least one
non-underscore character. -/
theorem c10_rotation_termination :
    (∀ s : List Char, s ≠ [] → (∀ c ∈ s, c = '_') → ∀ fuel, rotAux fuel s = none) ∧
    (∀ names : List (List Char),
      (∀ nm ∈ names, ∃ c ∈ replaceDots (stripL nm), c ≠ '_') →
      ∃ out, initFieldnames names = some out) := by
  constructor
  · intro s hne hall fuel
    induction fuel generalizing s with
    | zero =>
      cases s with
      | nil => exact absurd rfl hne
      | cons a l =>
        have ha : a = '_' := hall a (by simp)
        subst ha
        simp [rotAux]
    | succ f ih =>
      cases s with
      | nil => exact absurd rfl hne
      | cons a l =>
        have ha : a = '_' := hall a (by simp)
        subst ha
        simp only [rotAux, List.head?_cons, List.tail_cons]
        simp only [if_true]
        apply ih
        · simp
        · intro c hc
          rcases List.mem_append.mp hc with h1 | h2
          · exact hall c (by simp [h1])
          · simpa using h2
  · intro names hnames
    obtain ⟨l, hl⟩ := normalizeHeader_some names hnames
    exact ⟨fillEmptyNames 0 l, by simp [initFieldnames, hl]⟩

/-- Witness for C10: the all-underscore name `"_"` keeps the loop running
at the concrete fuel 5, and the one-name header `["a"]` terminates. -/
theorem c10_rotation_termination_witness :
    rotAux 5 ['_'] = none ∧ ∃ out, initFieldnames ["a".toList] = some out :=
  ⟨c10_rotation_termination.1 ['_'] (by decide) (by decide) 5,
   c10_rotation_termination.2 ["a".toList] (by decide)⟩

/-! ## UUID rendering and injectivity lemmas (claim C9) -/

theorem mul_add_split (K x1 x2 y1 y2 : Nat) (hy1 : y1 < K) (hy2 : y2 < K)
    (h : x1 * K + y1 = x2 * K + y2) : x1 = x2 ∧ y1 = y2 := by
  have hK : 0 < K := by omega
  have e : ∀ x y : Nat, y < K → (x * K + y) / K = x := by
    intro x y hy
    rw [Nat.mul_comm, Nat.mul_add_div hK, Nat.div_eq_of_lt hy, Nat.add_zero]
  have hx : x1 = x2 := by
    have hdiv := congrArg (fun z => z / K) h
    simpa [e x1 y1 hy1, e x2 y2 hy2] using hdiv
  subst hx
  exact ⟨rfl, Nat.add_left_cancel h⟩

theorem uuidHigh_low (ts seq node : Nat) :
    mkUuid1 ts seq node =
      ((ts % 4294967296) * 4294967296 + (((ts / 4294967296) % 65536) * 65536 +
        (((ts / 281474976710656) % 4096) + 4096))) * 18446744073709551616 +
      ((((seq / 256) % 64) + 128) * 72057594037927936 +
        (seq % 256) * 281474976710656 + (node % 281474976710656)) := by
  unfold mkUuid1
  ring

theorem uuidLow_lt (seq node : Nat) :
    (((seq / 256) % 64) + 128) * 72057594037927936 +
      (seq % 256) * 281474976710656 + (node % 281474976710656) <
      18446744073709551616 := by
  have h1 : (seq / 256) % 64 < 64 := Nat.mod_lt _ (by omega)
  have h2 : seq % 256 < 256 := Nat.mod_lt _ (by omega)
  have h3 : node % 281474976710656 < 281474976710656 := Nat.mod_lt _ (by omega)
  omega

theorem uuidMid_lt (ts : Nat) :
    ((ts / 4294967296) % 65536) * 65536 + (((ts / 281474976710656) % 4096) + 4096) <
      4294967296 := by
  have h1 : (ts / 4294967296) % 65536 < 65536 := Nat.mod_lt _ (by omega)
  have h2 : (ts / 281474976710656) % 4096 < 4096 := Nat.mod_lt _ (by omega)
  omega

/-- Two `uuid1` integers with timestamps below `2^60` agree only if the
timestamps agree (whatever the clock-sequence and node inputs are). -/
theorem mkUuid1_ts_inj (ts1 ts2 s1 s2 n1 n2 : Nat)
    (h1 : ts1 < 1152921504606846976) (h2 : ts2 < 1152921504606846976)
    (heq : mkUuid1 ts1 s1 n1 = mkUuid1 ts2 s2 n2) : ts1 = ts2 := by
  rw [uuidHigh_low, uuidHigh_low] at heq
  have hH := (mul_add_split _ _ _ _ _ (uuidLow_lt s1 n1) (uuidLow_lt s2 n2) heq).1
  have hA := mul_add_split _ _ _ _ _ (uuidMid_lt ts1) (uuidMid_lt ts2) hH
  have hB := mul_add_split _ _ _ _ _
    (by have := Nat.mod_lt (ts1 / 281474976710656) (show 0 < 4096 by omega); omega)
    (by have := Nat.mod_lt (ts2 / 281474976710656) (show 0 < 4096 by omega); omega)
    hA.2
  have d1 : ts1 / 4294967296 / 65536 = ts1 / 281474976710656 := by
    rw [Nat.div_div_eq_div_mul]
  have d2 : ts2 / 4294967296 / 65536 = ts2 / 281474976710656 := by
    rw [Nat.div_div_eq_div_mul]
  have hA1 := hA.1
  have hB1 := hB.1
  have hC1 := hB.2
  omega

theorem hexVal_hexChar : ∀ d, d < 16 → hexDigitVal (hexDigitChar d) = d := by
  decide

theorem hexDigitChar_ne_dash (d : Nat) : hexDigitChar d ≠ '-' := by
  unfold hexDigitChar
  split <;> decide

theorem stitch_take_drop (l : List Char) :
    l.take 8 ++ ((l.drop 8).take 4 ++ ((l.drop 12).take 4 ++
      ((l.drop 16).take 4 ++ l.drop 20))) = l := by
  have e1 : (l.drop 16).take 4 ++ l.drop 20 = l.drop 16 := by
    conv_rhs => rw [← List.take_append_drop 4 (l.drop 16)]
    rw [List.drop_drop]
  rw [e1]
  have e2 : (l.drop 12).take 4 ++ l.drop 16 = l.drop 12 := by
    conv_rhs => rw [← List.take_append_drop 4 (l.drop 12)]
    rw [List.drop_drop]
  rw [e2]
  have e3 : (l.drop 8).take 4 ++ l.drop 12 = l.drop 8 := by
    conv_rhs => rw [← List.take_append_drop 4 (l.drop 8)]
    rw [List.drop_drop]
  rw [e3, List.take_append_drop]

theorem filter_insertUuidDashes (l : List Char) (h : ∀ c ∈ l, c ≠ '-') :
    (insertUuidDashes l).filter (fun c => c ≠ '-') = l := by
  have hpiece : ∀ m : List Char, m ⊆ l → m.filter (fun c => c ≠ '-') = m := by
    intro m hm
    rw [List.filter_eq_self]
    intro a ha
    simpa using h a (hm ha)
  have hdashcons : ∀ m : List Char,
      List.filter (fun c => c ≠ '-') ('-' :: m) = List.filter (fun c => c ≠ '-') m := by
    intro m
    simp [List.filter_cons]
  unfold insertUuidDashes
  rw [List.filter_append, hdashcons, List.filter_append, hdashcons,
    List.filter_append, hdashcons, List.filter_append, hdashcons]
  rw [hpiece _ (List.take_subset _ _),
    hpiece _ ((List.take_subset _ _).trans (List.drop_subset _ _)),
    hpiece _ ((List.take_subset _ _).trans (List.drop_subset _ _)),
    hpiece _ ((List.take_subset _ _).trans (List.drop_subset _ _)),
    hpiece _ (List.drop_subset _ _)]
  exact stitch_take_drop l

theorem ofDigits_replicate_zero : ∀ k : Nat, Nat.ofDigits 16 (List.replicate k 0) = 0 := by
  intro k
  induction k with
  | zero => rfl
  | succ k2 ih => rw [List.replicate_succ, Nat.ofDigits_cons, ih]

theorem no_dash_uuidHexDigits (u : Nat) : ∀ c ∈ uuidHexDigits u, c ≠ '-' := by
  intro c hc
  unfold uuidHexDigits at hc
  rcases List.mem_append.mp hc with h1 | h2
  · rw [List.eq_of_mem_replicate h1]
    decide
  · obtain ⟨d, _, rfl⟩ := List.mem_map.mp h2
    exact hexDigitChar_ne_dash d

theorem parse_format_uuid (u : Nat) :
    parseUuidChars (insertUuidDashes (uuidHexDigits u)) = u := by
  unfold parseUuidChars
  rw [filter_insertUuidDashes _ (no_dash_uuidHexDigits u)]
  unfold uuidHexDigits
  rw [List.map_append, List.map_replicate]
  have hmap : ((Nat.digits 16 u).reverse.map hexDigitChar).map hexDigitVal =
      (Nat.digits 16 u).reverse := by
    rw [List.map_map]
    have : ∀ d ∈ (Nat.digits 16 u).reverse, (hexDigitVal ∘ hexDigitChar) d = d := by
      intro d hd
      exact hexVal_hexChar d (Nat.digits_lt_base (by norm_num) (List.mem_reverse.mp hd))
    calc ((Nat.digits 16 u).reverse).map (hexDigitVal ∘ hexDigitChar)
        = ((Nat.digits 16 u).reverse).map id := List.map_congr_left this
      _ = (Nat.digits 16 u).reverse := List.map_id _
  rw [hmap]
  have hv : hexDigitVal '0' = 0 := rfl
  rw [hv, List.reverse_append, List.reverse_replicate, List.reverse_reverse]
  rw [Nat.ofDigits_append, Nat.ofDigits_digits, ofDigits_replicate_zero]
  ring

theorem uuidToString_inj (u1 u2 : Nat) (h : uuidToString u1 = uuidToString u2) :
    u1 = u2 := by
  unfold uuidToString at h
  have h2 : insertUuidDashes (uuidHexDigits u1) = insertUuidDashes (uuidHexDigits u2) :=
    congrArg String.data h
  calc u1 = parseUuidChars (insertUuidDashes (uuidHexDigits u1)) :=
        (parse_format_uuid u1).symm
    _ = parseUuidChars (insertUuidDashes (uuidHexDigits u2)) := by rw [h2]
    _ = u2 := parse_format_uuid u2

/-! ## Extractor characterization (claims C8 and C9) -/

theorem extractAuto_eq (node : Nat) (fns : List String) (raws : Nat → Nat) (g0 : IdGen) :
    ∀ (rows : List (List String)) (j : Nat),
      extractAuto node fns raws j (idStateAfter node raws g0 j) rows =
        (expectedAuto node fns raws g0 j rows,
          idStateAfter node raws g0 (j + rows.length)) := by
  intro rows
  induction rows with
  | nil => intro j; simp [extractAuto, expectedAuto]
  | cons r rs ih =>
    intro j
    simp only [extractAuto, expectedAuto]
    have h2 : (make_id node (raws j) (idStateAfter node raws g0 j)).2 =
        idStateAfter node raws g0 (j + 1) := rfl
    rw [h2, ih (j + 1)]
    have h3 : j + 1 + rs.length = j + (rs.length + 1) := by omega
    rw [h3]
    rfl

theorem expectedAuto_length (node : Nat) (fns : List String) (raws : Nat → Nat)
    (g0 : IdGen) : ∀ (rows : List (List String)) (j : Nat),
      (expectedAuto node fns raws g0 j rows).length = rows.length := by
  intro rows
  induction rows with
  | nil => intro j; rfl
  | cons r rs ih => intro j; simp [expectedAuto, ih (j + 1)]

theorem expectedAuto_get (node : Nat) (fns : List String) (raws : Nat → Nat)
    (g0 : IdGen) : ∀ (rows : List (List String)) (j i : Nat) (hi : i < rows.length)
      (hr : i < (expectedAuto node fns raws g0 j rows).length),
      (expectedAuto node fns raws g0 j rows).get ⟨i, hr⟩ =
        setIdValue (rowToRecord fns (rows.get ⟨i, hi⟩))
          (.vStr (nthAutoId node raws g0 (j + i))) := by
  intro rows
  induction rows with
  | nil => intro j i hi; simp at hi
  | cons r rs ih =>
    intro j i hi hr
    cases i with
    | zero => simp [expectedAuto]
    | succ i2 =>
      have hi2 : i2 < rs.length := by simpa using hi
      have hr2 : i2 < (expectedAuto node fns raws g0 (j + 1) rs).length := by
        rw [expectedAuto_length]
        exact hi2
      have := ih (j + 1) i2 hi2 hr2
      simp only [expectedAuto, List.get_cons_succ]
      rw [this]
      have h3 : j + 1 + i2 = j + (i2 + 1) := by omega
      rw [h3]

/-- Claim C8: for every input file (with at least its header row),
`extract_records` yields exactly one record per data row — the rows after
the header, in file order — so the number of yielded records equals the
file's data-row count; the `i`-th record is built from the `i`-th data row
(with the `'id'` addition in auto-identifier mode). -/
theorem c8_extract_row_per_data_row (node : Nat) (pk : String) (fns : List String)
    (raws : Nat → Nat) (g0 : IdGen) (fileRows : List (List String))
    (header : List String) (dataRows : List (List String))
    (hrows : nonBlankRows fileRows = header :: dataRows) :
    ∃ recs gEnd, extract_records node pk fns raws g0 fileRows = some (recs, gEnd) ∧
      recs.length = dataRows.length ∧
      ∀ i (hi : i < dataRows.length), ∃ hr : i < recs.length,
        recs.get ⟨i, hr⟩ =
          if pk = AUTO_PRIMARY_KEY then
            setIdValue (rowToRecord fns (dataRows.get ⟨i, hi⟩))
              (.vStr (nthAutoId node raws g0 i))
          else rowToRecord fns (dataRows.get ⟨i, hi⟩) := by
  have hmatch : extract_records node pk fns raws g0 fileRows =
      (if pk = AUTO_PRIMARY_KEY then some (extractAuto node fns raws 0 g0 dataRows)
       else some (dataRows.map (rowToRecord fns), g0)) := by
    unfold extract_records
    rw [hrows]
  rw [hmatch]
  by_cases hpk : pk = AUTO_PRIMARY_KEY
  · rw [if_pos hpk]
    have hgo : extractAuto node fns raws 0 g0 dataRows =
        (expectedAuto node fns raws g0 0 dataRows,
          idStateAfter node raws g0 (0 + dataRows.length)) :=
      extractAuto_eq node fns raws g0 dataRows 0
    rw [hgo]
    refine ⟨_, _, rfl, expectedAuto_length node fns raws g0 dataRows 0, ?_⟩
    intro i hi
    have hr : i < (expectedAuto node fns raws g0 0 dataRows).length := by
      rw [expectedAuto_length]
      exact hi
    refine ⟨hr, ?_⟩
    rw [if_pos hpk, expectedAuto_get node fns raws g0 dataRows 0 i hi hr]
    simp
  · rw [if_neg hpk]
    refine ⟨_, _, rfl, by simp, ?_⟩
    intro i hi
    have hr : i < (dataRows.map (rowToRecord fns)).length := by simpa using hi
    refine ⟨hr, ?_⟩
    rw [if_neg hpk]
    simp

/-- Witness for C8 at a concrete two-data-row file (explicit primary key,
so no identifier is added). -/
theorem c8_extract_row_per_data_row_witness :
    ∃ recs gEnd,
      extract_records 0 "k" ["h"] (fun _ => 0) ⟨0, none⟩ [["h"], ["v1"], ["v2"]] =
        some (recs, gEnd) ∧
      recs.length = ([["v1"], ["v2"]] : List (List String)).length ∧
      ∀ i (hi : i < ([["v1"], ["v2"]] : List (List String)).length),
        ∃ hr : i < recs.length,
          recs.get ⟨i, hr⟩ =
            if "k" = AUTO_PRIMARY_KEY then
              setIdValue (rowToRecord ["h"]
                  (([["v1"], ["v2"]] : List (List String)).get ⟨i, hi⟩))
                (.vStr (nthAutoId 0 (fun _ => 0) ⟨0, none⟩ i))
            else rowToRecord ["h"] (([["v1"], ["v2"]] : List (List String)).get ⟨i, hi⟩) :=
  c8_extract_row_per_data_row 0 "k" ["h"] (fun _ => 0) ⟨0, none⟩
    [["h"], ["v1"], ["v2"]] ["h"] [["v1"], ["v2"]] (by decide)

/-! ## Claim C9: auto-identifier uniqueness -/

theorem bumpTs_some_gt (l raw : Nat) : l < bumpTs (some l) raw := by
  have he : bumpTs (some l) raw = if raw ≤ l then l + 1 else raw := rfl
  rw [he]
  by_cases hc : raw ≤ l
  · rw [if_pos hc]; omega
  · rw [if_neg hc]; omega

theorem tsOf_lt_succ (node : Nat) (raws : Nat → Nat) (g0 : IdGen) (i : Nat) :
    tsOf node raws g0 i < tsOf node raws g0 (i + 1) :=
  bumpTs_some_gt (tsOf node raws g0 i) (raws (i + 1))

theorem tsOf_strictMono (node : Nat) (raws : Nat → Nat) (g0 : IdGen) :
    StrictMono (tsOf node raws g0) :=
  strictMono_nat_of_lt_succ (tsOf_lt_succ node raws g0)

theorem tsOf_lt_bound (node : Nat) (raws : Nat → Nat) (g0 : IdGen)
    (hg : g0.lastTs = none) (hraw : ∀ j, raws j < 576460752303423488) :
    ∀ i, tsOf node raws g0 i < 576460752303423488 + i := by
  intro i
  induction i with
  | zero =>
    have he : tsOf node raws g0 0 = bumpTs g0.lastTs (raws 0) := rfl
    rw [he, hg]
    have he2 : bumpTs none (raws 0) = raws 0 := rfl
    rw [he2]
    have := hraw 0
    omega
  | succ i2 ih =>
    have he : tsOf node raws g0 (i2 + 1) =
        bumpTs (some (tsOf node raws g0 i2)) (raws (i2 + 1)) := rfl
    rw [he]
    have he2 : bumpTs (some (tsOf node raws g0 i2)) (raws (i2 + 1)) =
        if raws (i2 + 1) ≤ tsOf node raws g0 i2 then tsOf node raws g0 i2 + 1
        else raws (i2 + 1) := rfl
    rw [he2]
    by_cases hc : raws (i2 + 1) ≤ tsOf node raws g0 i2
    · rw [if_pos hc]; omega
    · rw [if_neg hc]
      have := hraw (i2 + 1)
      omega

theorem nthAutoId_ne (node : Nat) (raws : Nat → Nat) (g0 : IdGen)
    (hg : g0.lastTs = none) (hraw : ∀ j, raws j < 576460752303423488)
    (i j : Nat) (hi : i < 576460752303423488) (hj : j < 576460752303423488)
    (hne : i ≠ j) : nthAutoId node raws g0 i ≠ nthAutoId node raws g0 j := by
  intro heq
  have hui : nthAutoId node raws g0 i = uuidToString
      (mkUuid1 (tsOf node raws g0 i) ((idStateAfter node raws g0 i).clockSeq + 1) node) := rfl
  have huj : nthAutoId node raws g0 j = uuidToString
      (mkUuid1 (tsOf node raws g0 j) ((idStateAfter node raws g0 j).clockSeq + 1) node) := rfl
  rw [hui, huj] at heq
  have hu := uuidToString_inj _ _ heq
  have hbi := tsOf_lt_bound node raws g0 hg hraw i
  have hbj := tsOf_lt_bound node raws g0 hg hraw j
  have hts := mkUuid1_ts_inj _ _ _ _ _ _ (by omega) (by omega) hu
  exact hne ((tsOf_strictMono node raws g0).injective hts)

theorem find_id_map_set (v : CellV) :
    ∀ rec : List (String × CellV), rec.any (fun p => p.1 = "id") = true →
      (rec.map (fun p => if p.1 = "id" then (p.1, v) else p)).find?
        (fun p => p.1 = "id") = some ("id", v) := by
  intro rec
  induction rec with
  | nil => intro h; simp at h
  | cons p ps ih =>
    intro h
    by_cases hp : p.1 = "id"
    · simp [List.find?_cons, hp]
    · simp only [List.map_cons, if_neg hp, List.find?_cons]
      have hfalse : (decide (p.1 = "id")) = false := by simp [hp]
      rw [hfalse]
      apply ih
      simp only [List.any_cons, hfalse, Bool.false_or] at h
      exact h

theorem find_id_append (v : CellV) :
    ∀ rec : List (String × CellV), rec.any (fun p => p.1 = "id") = false →
      (rec ++ [("id", v)]).find? (fun p => p.1 = "id") = some ("id", v) := by
  intro rec
  induction rec with
  | nil => intro _; simp [List.find?_cons]
  | cons p ps ih =>
    intro h
    simp only [List.any_cons, Bool.or_eq_false_iff] at h
    simp only [List.cons_append, List.find?_cons]
    have hfalse : (decide (p.1 = "id")) = false := h.1
    rw [hfalse]
    exact ih h.2

theorem idValue_setIdValue (rec : List (String × CellV)) (v : CellV) :
    idValue (setIdValue rec v) = some v := by
  unfold setIdValue idValue
  by_cases h : rec.any (fun p => p.1 = "id") = true
  · rw [if_pos h, find_id_map_set v rec h]
    rfl
  · rw [if_neg h, find_id_append v rec
      (by simp only [Bool.not_eq_true] at h; exact h)]
    rfl

/-- Claim C9: in auto-generated-identifier mode, every record of a run
carries an `'id'` value that is a string, and the identifiers of any two
distinct records of the run are distinct.  The per-process `uuid1`
timestamp bump makes successive timestamps strictly increase, so the
rendered UUIDs differ; the bounds keep the 60-bit timestamp field from
wrapping (the raw 100ns clock readings and the row count are far below
`2^59` in any real run). -/
theorem c9_auto_ids_unique (node : Nat) (fns : List String) (raws : Nat → Nat)
    (g0 : IdGen) (fileRows : List (List String)) (header : List String)
    (dataRows : List (List String))
    (hrows : nonBlankRows fileRows = header :: dataRows)
    (hg : g0.lastTs = none)
    (hraw : ∀ j, raws j < 576460752303423488)
    (hn : dataRows.length ≤ 576460752303423488) :
    ∃ recs gEnd,
      extract_records node AUTO_PRIMARY_KEY fns raws g0 fileRows = some (recs, gEnd) ∧
      (∀ i (hi : i < recs.length), ∃ s : String,
        idValue (recs.get ⟨i, hi⟩) = some (.vStr s)) ∧
      (∀ i j (hi : i < recs.length) (hj : j < recs.length), i ≠ j →
        idValue (recs.get ⟨i, hi⟩) ≠ idValue (recs.get ⟨j, hj⟩)) := by
  obtain ⟨recs, gEnd, hex, hlen, hget⟩ :=
    c8_extract_row_per_data_row node AUTO_PRIMARY_KEY fns raws g0 fileRows header
      dataRows hrows
  refine ⟨recs, gEnd, hex, ?_, ?_⟩
  · intro i hi
    have hi2 : i < dataRows.length := by rw [← hlen]; exact hi
    obtain ⟨hr, hr_eq⟩ := hget i hi2
    rw [if_pos rfl] at hr_eq
    refine ⟨nthAutoId node raws g0 i, ?_⟩
    rw [show recs.get ⟨i, hi⟩ = recs.get ⟨i, hr⟩ from rfl, hr_eq, idValue_setIdValue]
  · intro i j hi hj hne
    have hi2 : i < dataRows.length := by rw [← hlen]; exact hi
    have hj2 : j < dataRows.length := by rw [← hlen]; exact hj
    obtain ⟨hri, heqi⟩ := hget i hi2
    obtain ⟨hrj, heqj⟩ := hget j hj2
    rw [if_pos rfl] at heqi heqj
    rw [show recs.get ⟨i, hi⟩ = recs.get ⟨i, hri⟩ from rfl, heqi, idValue_setIdValue]
    rw [show recs.get ⟨j, hj⟩ = recs.get ⟨j, hrj⟩ from rfl, heqj, idValue_setIdValue]
    intro heq
    have hs : nthAutoId node raws g0 i = nthAutoId node raws g0 j := by
      simpa using heq
    exact nthAutoId_ne node raws g0 hg hraw i j (by omega) (by omega) hne hs

/-- Witness for C9 at a concrete two-data-row file in auto mode. -/
theorem c9_auto_ids_unique_witness :
    ∃ recs gEnd,
      extract_records 0 AUTO_PRIMARY_KEY ["h"] (fun _ => 0) ⟨0, none⟩
        [["h"], ["v1"], ["v2"]] = some (recs, gEnd) ∧
      (∀ i (hi : i < recs.length), ∃ s : String,
        idValue (recs.get ⟨i, hi⟩) = some (.vStr s)) ∧
      (∀ i j (hi : i < recs.length) (hj : j < recs.length), i ≠ j →
        idValue (recs.get ⟨i, hi⟩) ≠ idValue (recs.get ⟨j, hj⟩)) :=
  c9_auto_ids_unique 0 ["h"] (fun _ => 0) ⟨0, none⟩ [["h"], ["v1"], ["v2"]]
    ["h"] [["v1"], ["v2"]] (by decide) rfl
    (by intro j; show (0 : Nat) < 576460752303423488; decide) (by decide)
